import Mathlib

set_option maxHeartbeats 1000000

/-!
Verification of the feature-engineering core of the insider-trading
detection repository (src/features.py, src/ingest.py).

The pandas dataframe pipeline is embedded shallowly:

* a dataframe is a `Table`: a list of `Row`s together with presence flags
  for the columns whose absence the source code reacts to (the `date`,
  `ticker`, `transaction` and insider columns); a flag set to `false`
  means the column is absent from the schema, and the corresponding row
  fields are then ignored by every function below;
* timestamps are date-granularity (spec §3), modelled as whole days
  (`Int`); monetary columns are exact rationals;
* a pandas exception (`ValueError` / `KeyError`, called `SchemaError` in
  the spec) is an `Except SchemaError` result;
* the missing sentinel (`NaN` / `pd.NA`) in a derived column is `none`.
-/

/-- A trade record, one row of the cleaned dataframe.  The entity
(`ticker`) and actor (`insider`) identifiers are modelled as opaque
numeric ids: the source's string identifiers carry a decidable total
(lexicographic) order, and nothing in the pipeline depends on which
total order the identifiers carry — only grouping (equality) and the
sort use it. -/
structure Row where
  ticker : Nat
  date : Int
  insider : Nat
  transaction : String
  shares : ℚ
  price : ℚ
deriving DecidableEq, Repr

/-- Default row used with `List.getD`. -/
def dRow : Row := ⟨0, 0, 0, "", 0, 0⟩

/-- `add_basic_features` line 94: `trade_value = shares * price`. -/
def Row.tradeValue (r : Row) : ℚ := r.shares * r.price

/-- A dataframe: column-presence flags plus the rows. -/
structure Table where
  hasDate : Bool
  hasTicker : Bool
  hasTransaction : Bool
  hasInsider : Bool
  rows : List Row
deriving DecidableEq, Repr

/-- The errors raised by the pipeline for absent columns
(`ValueError` from the column lookups, `KeyError` from
`sort_values`/`groupby`); the spec groups them all as `SchemaError`. -/
inductive SchemaError where
  | missingDate
  | missingTicker
  | missingTransaction
  | missingEssential
deriving DecidableEq, Repr

/-- Sort key of `stats_df.sort_values(["ticker", date_col])`
(features.py line 134): lexicographic on (ticker, date). -/
def statLE (a b : Row) : Prop :=
  a.ticker < b.ticker ∨ (a.ticker = b.ticker ∧ a.date ≤ b.date)

instance : DecidableRel statLE := fun a b => by
  unfold statLE; infer_instance

instance : IsTotal Row statLE :=
  ⟨fun a b => by
    rcases lt_trichotomy a.ticker b.ticker with h | h | h
    · exact Or.inl (Or.inl h)
    · rcases le_total a.date b.date with hd | hd
      · exact Or.inl (Or.inr ⟨h, hd⟩)
      · exact Or.inr (Or.inr ⟨h.symm, hd⟩)
    · exact Or.inr (Or.inl h)⟩

instance : IsTrans Row statLE :=
  ⟨fun a b c hab hbc => by
    rcases hab with h1 | ⟨e1, d1⟩
    · rcases hbc with h2 | ⟨e2, _⟩
      · exact Or.inl (h1.trans h2)
      · exact Or.inl (e2 ▸ h1)
    · rcases hbc with h2 | ⟨e2, d2⟩
      · exact Or.inl (e1 ▸ h2)
      · exact Or.inr ⟨e1.trans e2, d1.trans d2⟩⟩

/-- Sort key of `dated_df.sort_values([insider_col, "ticker", date_col])`
(features.py line 187): lexicographic on (insider, ticker, date). -/
def gapLE (a b : Row) : Prop :=
  a.insider < b.insider ∨
    (a.insider = b.insider ∧
      (a.ticker < b.ticker ∨ (a.ticker = b.ticker ∧ a.date ≤ b.date)))

instance : DecidableRel gapLE := fun a b => by
  unfold gapLE; infer_instance

instance : IsTotal Row gapLE :=
  ⟨fun a b => by
    rcases lt_trichotomy a.insider b.insider with h | h | h
    · exact Or.inl (Or.inl h)
    · rcases lt_trichotomy a.ticker b.ticker with h2 | h2 | h2
      · exact Or.inl (Or.inr ⟨h, Or.inl h2⟩)
      · rcases le_total a.date b.date with hd | hd
        · exact Or.inl (Or.inr ⟨h, Or.inr ⟨h2, hd⟩⟩)
        · exact Or.inr (Or.inr ⟨h.symm, Or.inr ⟨h2.symm, hd⟩⟩)
      · exact Or.inr (Or.inr ⟨h.symm, Or.inl h2⟩)
    · exact Or.inr (Or.inl h)⟩

instance : IsTrans Row gapLE :=
  ⟨fun a b c hab hbc => by
    rcases hab with h1 | ⟨e1, t1⟩
    · rcases hbc with h2 | ⟨e2, _⟩
      · exact Or.inl (h1.trans h2)
      · exact Or.inl (e2 ▸ h1)
    · rcases hbc with h2 | ⟨e2, t2⟩
      · exact Or.inl (e1 ▸ h2)
      · refine Or.inr ⟨e1.trans e2, ?_⟩
        rcases t1 with h3 | ⟨f1, d1⟩
        · rcases t2 with h4 | ⟨f2, _⟩
          · exact Or.inl (h3.trans h4)
          · exact Or.inl (f2 ▸ h3)
        · rcases t2 with h4 | ⟨f2, d2⟩
          · exact Or.inl (f1 ▸ h4)
          · exact Or.inr ⟨f1.trans f2, d1.trans d2⟩⟩

/-! ### Windowed Statistics Engine (`add_statistical_features`) -/

/-- Stable sort by (ticker, date); models line 134
`stats_df.sort_values(["ticker", date_col])`.  (pandas' default sort is
deterministic; the stable reading matches the spec's "ties broken by
original input order" and is the reading most favourable to the spec.) -/
def statSort (rows : List Row) : List Row := rows.insertionSort statLE

/-- The entity group of the row at position `i` of the sorted table:
`groupby("ticker")` keeps, in order, the rows sharing the ticker. -/
def grpAt (s : List Row) (i : Nat) : List Row :=
  s.filter (fun r => r.ticker = (s.getD i dRow).ticker)

/-- Position of row `i` of the sorted table inside its entity group. -/
def groupIdx (s : List Row) (i : Nat) : Nat :=
  ((s.take i).filter (fun r => r.ticker = (s.getD i dRow).ticker)).length

/-- The trade values pandas `rolling(window=wD, on=date_col)` aggregates
for the row at position `k` of its group `g`: the rows at positions
`≤ k` whose date lies strictly after `date k − w` (time-based window,
`closed="right"`, i.e. the interval `(t − w, t]`; within a group the
date column is non-decreasing after the sort, so the upper bound
`date ≤ date k` is automatic for positions `≤ k`). -/
def windowVals (w : Int) (g : List Row) (k : Nat) : List ℚ :=
  ((g.take (k + 1)).filter
      (fun r => (g.getD k dRow).date - w < r.date)).map Row.tradeValue

/-- `rolling(...).mean()`: `none` on an empty window (never hit for a
real row, whose own value is always in the window). -/
def rollingMean (w : Int) (g : List Row) (k : Nat) : Option ℚ :=
  if (windowVals w g k).length = 0 then none
  else some ((windowVals w g k).sum / ((windowVals w g k).length : ℚ))

/-- `rolling(window="30D").std()` squared: the sample variance
(`ddof = 1`) of the 30-day window; `none` (pandas `NaN`) when the
window holds fewer than two points. -/
def rollingVar (g : List Row) (k : Nat) : Option ℚ :=
  if (windowVals 30 g k).length < 2 then none
  else
    some
      (((windowVals 30 g k).map
            (fun x =>
              (x - (windowVals 30 g k).sum / ((windowVals 30 g k).length : ℚ)) ^ 2)).sum /
        (((windowVals 30 g k).length : ℚ) - 1))

/-- `.replace(0, pd.NA)` on the rolling std (line 163): a standard
deviation of exactly zero becomes the missing sentinel.  Since
`σ = 0 ↔ σ² = 0`, the replacement is applied to the variance. -/
def stdReplaced (g : List Row) (k : Nat) : Option ℚ :=
  match rollingVar g k with
  | none => none
  | some v => if v = 0 then none else some v

/-- Line 165: `(trade_value - rolling_mean) / rolling_std`.  A missing
std (single-point window, or zero after the replace) propagates to a
missing z-score; otherwise the quotient by `σ = √(variance)`. -/
noncomputable def zscoreCell (g : List Row) (k : Nat) : Option ℝ :=
  (stdReplaced g k).map
    (fun v =>
      ((((g.getD k dRow).tradeValue - (rollingMean 30 g k).getD 0 : ℚ) : ℝ)) /
        Real.sqrt ((v : ℚ) : ℝ))

/-- Line 167: `rank(pct=True)` with the default `method="average"`:
the average 1-based rank of `v` among `xs` — `(#{x < v} + (#{x = v} + 1)/2)` —
divided by the group size. -/
def pctRankVal (xs : List ℚ) (v : ℚ) : ℚ :=
  (((xs.countP (fun x => x < v) : ℚ)) + ((xs.countP (fun x => x = v) : ℚ) + 1) / 2) /
    (xs.length : ℚ)

/-- Lines 168: `Series.quantile(0.95)` with the default linear
interpolation between order statistics. -/
def quantile95 (xs : List ℚ) : ℚ :=
  ((xs.insertionSort (· ≤ ·)).getD (((xs.length : ℚ) - 1) * (19 / 20) : ℚ).floor.toNat 0) +
    ((((xs.length : ℚ) - 1) * (19 / 20)) - ((((xs.length : ℚ) - 1) * (19 / 20) : ℚ).floor.toNat : ℚ)) *
      (((xs.insertionSort (· ≤ ·)).getD ((((xs.length : ℚ) - 1) * (19 / 20) : ℚ).floor.toNat + 1) 0) -
        ((xs.insertionSort (· ≤ ·)).getD (((xs.length : ℚ) - 1) * (19 / 20) : ℚ).floor.toNat 0))

/-- One output row of the Windowed Statistics Engine: the base record
plus the five derived columns. -/
structure StatRow where
  base : Row
  mean7 : Option ℚ
  mean30 : Option ℚ
  zscore : Option ℝ
  pctRank : ℚ
  unusualVolume : Nat

/-- Default output row used with `List.getD`. -/
noncomputable def dStat : StatRow := ⟨dRow, none, none, none, 0, 0⟩

/-- The derived columns for position `i` of the sorted table. -/
noncomputable def statRowAt (s : List Row) (i : Nat) : StatRow :=
  { base := s.getD i dRow
    mean7 := rollingMean 7 (grpAt s i) (groupIdx s i)
    mean30 := rollingMean 30 (grpAt s i) (groupIdx s i)
    zscore := zscoreCell (grpAt s i) (groupIdx s i)
    pctRank := pctRankVal ((grpAt s i).map Row.tradeValue) ((s.getD i dRow).tradeValue)
    unusualVolume :=
      if quantile95 ((grpAt s i).map Row.tradeValue) < (s.getD i dRow).tradeValue then 1 else 0 }

/-- The full output table of the engine, in sorted row order. -/
noncomputable def statRows (rows : List Row) : List StatRow :=
  (List.range (statSort rows).length).map (fun i => statRowAt (statSort rows) i)

/-- `add_statistical_features` (features.py lines 126–171).  The column
lookups and the `sort_values`/`groupby` raise, in source order, when
the date (line 130), transaction (line 131) or ticker (line 134)
column is absent. -/
noncomputable def addStatisticalFeatures (t : Table) : Except SchemaError (List StatRow) :=
  if t.hasDate = false then .error .missingDate
  else if t.hasTransaction = false then .error .missingTransaction
  else if t.hasTicker = false then .error .missingTicker
  else .ok (statRows t.rows)

/-- The rows the caller observes on success (`[]` after an exception). -/
noncomputable def statOut (t : Table) : List StatRow :=
  (addStatisticalFeatures t).toOption.getD []

/-! ### Temporal Gap Engine (`add_date_features`) -/

/-- Proleptic-Gregorian civil date from a day number (days since
1970-01-01): the (year, month, day) triple pandas' `.dt.year`,
`.dt.month`, `.dt.day` extract from a date-granularity timestamp
(the standard civil-from-days algorithm; `/` on `Int` is floor
division for the positive divisors used here). -/
def civilFromDays (z0 : Int) : Int × Int × Int :=
  let z := z0 + 719468
  let era := z / 146097
  let doe := z - era * 146097
  let yoe := (doe - doe / 1460 + doe / 36524 - doe / 146096) / 365
  let y := yoe + era * 400
  let doy := doe - (365 * yoe + yoe / 4 - yoe / 100)
  let mp := (5 * doy + 2) / 153
  let d := doy - (153 * mp + 2) / 5 + 1
  let m := mp + (if mp < 10 then 3 else -9)
  (if m ≤ 2 then y + 1 else y, m, d)

/-- `.dt.year`. -/
def yearOf (d : Int) : Int := (civilFromDays d).1

/-- `.dt.month`. -/
def monthOf (d : Int) : Int := (civilFromDays d).2.1

/-- `.dt.day`. -/
def dayOf (d : Int) : Int := (civilFromDays d).2.2

/-- `.dt.weekday`, 0 = Monday; day 0 (1970-01-01) was a Thursday. -/
def weekdayOf (d : Int) : Int := (d + 3) % 7

/-- One output row of the Temporal Gap Engine over base rows of type
`α` (in the full pipeline the engine runs on the statistics engine's
output, so each row carries the statistics columns along). -/
structure Gapped (α : Type) where
  base : α
  year : Int
  month : Int
  day : Int
  weekday : Int
  daysSinceLastTrade : Option Int

/-- `groupby([insider_col, "ticker"])[date_col].diff().dt.days` at
position `i` of the sorted row list: the day difference to the nearest
earlier row with the same insider and ticker, `none` (`NaT`) when that
row is the first of its group. -/
def gapAt (s : List Row) (i : Nat) : Option Int :=
  match ((s.take i).filter
      (fun p =>
        p.insider = (s.getD i dRow).insider ∧ p.ticker = (s.getD i dRow).ticker)).getLast? with
  | none => none
  | some p => some ((s.getD i dRow).date - p.date)

/-- `add_date_features` (features.py lines 174–194), generic in the
payload carried with each trade record (`rowOf` projects the record,
`dflt` is the `getD` default).  The date-column lookup raises when that
column is absent (line 178); the calendar columns are per-row maps; the
gap column is computed per (insider, ticker) group after a stable sort
by (insider, ticker, date) when both the insider and the ticker column
exist, and is all-missing otherwise (lines 186–192). -/
def dateAugment {α : Type} (dflt : α) (rowOf : α → Row)
    (hasDate hasInsider hasTicker : Bool) (xs : List α) :
    Except SchemaError (List (Gapped α)) :=
  if hasDate = false then .error .missingDate
  else if hasInsider = true ∧ hasTicker = true then
    .ok
      ((List.range (xs.insertionSort (fun a b => gapLE (rowOf a) (rowOf b))).length).map
        (fun i =>
          { base := (xs.insertionSort (fun a b => gapLE (rowOf a) (rowOf b))).getD i dflt
            year := yearOf (rowOf ((xs.insertionSort (fun a b => gapLE (rowOf a) (rowOf b))).getD i dflt)).date
            month := monthOf (rowOf ((xs.insertionSort (fun a b => gapLE (rowOf a) (rowOf b))).getD i dflt)).date
            day := dayOf (rowOf ((xs.insertionSort (fun a b => gapLE (rowOf a) (rowOf b))).getD i dflt)).date
            weekday := weekdayOf (rowOf ((xs.insertionSort (fun a b => gapLE (rowOf a) (rowOf b))).getD i dflt)).date
            daysSinceLastTrade :=
              gapAt ((xs.insertionSort (fun a b => gapLE (rowOf a) (rowOf b))).map rowOf) i }))
  else
    .ok
      (xs.map
        (fun a =>
          { base := a
            year := yearOf (rowOf a).date
            month := monthOf (rowOf a).date
            day := dayOf (rowOf a).date
            weekday := weekdayOf (rowOf a).date
            daysSinceLastTrade := none }))

/-- `add_date_features` on a plain table of trade records. -/
def addDateFeatures (t : Table) : Except SchemaError (List (Gapped Row)) :=
  dateAugment dRow id t.hasDate t.hasInsider t.hasTicker t.rows

/-- The rows the caller observes on success (`[]` after an exception). -/
def dateOut (t : Table) : List (Gapped Row) :=
  (addDateFeatures t).toOption.getD []

/-! ### Record Normalizer (`clean_data`) and the pipeline -/

/-- A raw input row: the essential cells that can fail to parse are
`Option`s (`pd.to_numeric` / `pd.to_datetime` with `errors="coerce"`
turn unparseable cells into `NaN`/`NaT`, which `dropna` removes). -/
structure RawRow where
  ticker : Nat
  date : Option Int
  insider : Nat
  transaction : String
  shares : Option ℚ
  price : Option ℚ
deriving DecidableEq, Repr

/-- The raw loaded dataframe. -/
structure RawTable where
  hasDate : Bool
  hasTicker : Bool
  hasTransaction : Bool
  hasInsider : Bool
  hasShares : Bool
  hasPrice : Bool
  rows : List RawRow
deriving DecidableEq, Repr

/-- Python's `str.title()` on the ASCII data of this dataset: an
alphabetic character is uppercased when the preceding character is not
alphabetic, and lowercased otherwise. -/
def titleGo : Bool → List Char → List Char
  | _, [] => []
  | prevAlpha, c :: cs =>
    if c.isAlpha then
      (if prevAlpha then c.toLower else c.toUpper) :: titleGo true cs
    else c :: titleGo false cs

/-- `str.title()`. -/
def titleCase (s : String) : String := ⟨titleGo false s.data⟩

/-- Python's `str.strip()`: drop leading and trailing whitespace. -/
def pyStrip (s : String) : String :=
  ⟨((s.data.dropWhile Char.isWhitespace).reverse.dropWhile Char.isWhitespace).reverse⟩

/-- Line 82: `.astype(str).str.strip().str.title()`. -/
def normalizeTransaction (s : String) : String := titleCase (pyStrip s)

/-- `clean_data` (features.py lines 50–85): raises when an essential
column (date, shares, price, lines 64–67) or the transaction column
(line 81) is absent; drops rows whose essential cells are missing or
unparseable (the two `dropna` calls, lines 69 and 79); normalizes the
transaction strings and keeps only the `Buy`/`Sale` rows (line 83). -/
def cleanData (t : RawTable) : Except SchemaError Table :=
  if (t.hasDate && t.hasShares && t.hasPrice) = false then .error .missingEssential
  else if t.hasTransaction = false then .error .missingTransaction
  else
    .ok
      { hasDate := true
        hasTicker := t.hasTicker
        hasTransaction := true
        hasInsider := t.hasInsider
        rows :=
          ((t.rows.filter
                (fun r => r.date.isSome ∧ r.shares.isSome ∧ r.price.isSome)).map
              (fun r =>
                { ticker := r.ticker
                  date := r.date.getD 0
                  insider := r.insider
                  transaction := normalizeTransaction r.transaction
                  shares := r.shares.getD 0
                  price := r.price.getD 0 })).filter
            (fun r => r.transaction = "Buy" ∨ r.transaction = "Sale") }

/-- `build_feature_matrix` (features.py lines 197–221) applied to the
loaded raw table: the empty-input short-circuit (lines 201–202), then
clean → basic features → Windowed Statistics Engine → Temporal Gap
Engine.  (The final free-text/identifier column drop, lines 209–219,
removes only input columns already carried inside `Row` and no derived
feature column, so it is not modelled further.) -/
noncomputable def buildFeatureMatrix (raw : RawTable) :
    Except SchemaError (List (Gapped StatRow)) :=
  if raw.rows.isEmpty then .ok []
  else
    match cleanData raw with
    | .error e => .error e
    | .ok t =>
      match addStatisticalFeatures t with
      | .error e => .error e
      | .ok stats => dateAugment dStat StatRow.base t.hasDate t.hasInsider t.hasTicker stats

/-! ### Definitions taken verbatim from the claims' wording -/

/-- The trailing-window mean exactly as claim C1 words it: the average
of `trade_value` over **all** rows of the group with timestamp in
`(t − w, t]`. -/
def specTrailingMean (w : Int) (g : List Row) (d : Int) : ℚ :=
  (((g.filter (fun p => d - w < p.date ∧ p.date ≤ d)).map Row.tradeValue).sum) /
    (((g.filter (fun p => d - w < p.date ∧ p.date ≤ d)).map Row.tradeValue).length : ℚ)

/-- The trailing-window mean as amended: the rows of the group with
timestamp in `(t − w, t]` that sit at or before the current row
(position `k`) in the group's sort order. -/
def specTrailingMeanAt (w : Int) (g : List Row) (k : Nat) : ℚ :=
  ((((g.take (k + 1)).filter
        (fun p => (g.getD k dRow).date - w < p.date ∧ p.date ≤ (g.getD k dRow).date)).map
      Row.tradeValue).sum) /
    ((((g.take (k + 1)).filter
        (fun p => (g.getD k dRow).date - w < p.date ∧ p.date ≤ (g.getD k dRow).date)).map
      Row.tradeValue).length : ℚ)

/-- The percentile-rank formula exactly as claim C3 words it:
`(#{value < v} + 0.5 * #{value = v}) / N`. -/
def claimPctRank (xs : List ℚ) (v : ℚ) : ℚ :=
  ((xs.countP (fun x => x < v) : ℚ) + (xs.countP (fun x => x = v) : ℚ) / 2) /
    (xs.length : ℚ)

/-- The (insider, ticker) group of the row at position `i` of the
sorted table, as `groupby([insider_col, "ticker"])` forms it. -/
def gapGrp (s : List Row) (i : Nat) : List Row :=
  s.filter
    (fun p => p.insider = (s.getD i dRow).insider ∧ p.ticker = (s.getD i dRow).ticker)

/-- Position of row `i` of the sorted table inside its
(insider, ticker) group. -/
def gapIdx (s : List Row) (i : Nat) : Nat :=
  ((s.take i).filter
      (fun p => p.insider = (s.getD i dRow).insider ∧ p.ticker = (s.getD i dRow).ticker)).length

/-- Stable sort by (insider, ticker, date), features.py line 187. -/
def gapSort (rows : List Row) : List Row := rows.insertionSort gapLE

/-- Default gapped row for `List.getD`. -/
def dGap : Gapped Row := ⟨dRow, 0, 0, 0, 0, none⟩

/-! ### Helper lemmas about filters, prefixes and sorting -/

theorem filter_take_spec {α : Type} (p : α → Bool) (d : α) :
    ∀ (s : List α) (i : Nat), i < s.length → p (s.getD i d) = true →
      ((s.take i).filter p).length < (s.filter p).length ∧
        (s.filter p).getD ((s.take i).filter p).length d = s.getD i d := by
  intro s
  induction s with
  | nil => intro i hi _; simp at hi
  | cons a tl ih =>
    intro i hi hp
    cases i with
    | zero =>
      simp only [List.getD_cons_zero] at hp
      simp [List.filter_cons, hp]
    | succ n =>
      simp only [List.length_cons, Nat.succ_lt_succ_iff] at hi
      simp only [List.getD_cons_succ] at hp
      have h2 := ih n hi hp
      rw [List.take_succ_cons]
      cases hpa : p a
      · simp only [List.filter_cons, hpa, Bool.false_eq_true, if_false,
          List.getD_cons_succ]
        exact h2
      · simp only [List.filter_cons, hpa, if_true, List.length_cons,
          List.getD_cons_succ]
        exact ⟨Nat.succ_lt_succ h2.1, h2.2⟩

theorem filter_take_eq {α : Type} (p : α → Bool) :
    ∀ (s : List α) (i : Nat),
      (s.take i).filter p = (s.filter p).take ((s.take i).filter p).length := by
  intro s
  induction s with
  | nil => intro i; simp
  | cons a tl ih =>
    intro i
    cases i with
    | zero => simp
    | succ n =>
      rw [List.take_succ_cons]
      cases hpa : p a
      · simp only [List.filter_cons, hpa, Bool.false_eq_true, if_false]
        exact ih n
      · simp only [List.filter_cons, hpa, if_true, List.length_cons,
          List.take_succ_cons]
        rw [← ih n]

theorem getLast?_take_getD {α : Type} (d : α) :
    ∀ (l : List α) (k : Nat), 0 < k → k ≤ l.length →
      (l.take k).getLast? = some (l.getD (k - 1) d) := by
  intro l
  induction l with
  | nil => intro k hk hlen; simp at hlen; omega
  | cons a tl ih =>
    intro k hk hlen
    cases k with
    | zero => omega
    | succ n =>
      cases n with
      | zero => simp
      | succ m =>
        cases tl with
        | nil => simp at hlen
        | cons b tl2 =>
          rw [List.take_succ_cons, List.take_succ_cons, List.getLast?_cons_cons]
          have hlen2 : m + 1 ≤ (b :: tl2).length := by
            simp only [List.length_cons] at hlen ⊢; omega
          have := ih (m + 1) (Nat.succ_pos m) hlen2
          rw [List.take_succ_cons] at this
          rw [this]
          simp

theorem rangeMap_getD {β : Type} (d : β) (n : Nat) (f : Nat → β) (i : Nat)
    (h : i < n) : ((List.range n).map f).getD i d = f i := by
  rw [List.getD_eq_getElem _ d (by simpa using h)]
  simp

theorem sortedPermEq {α : Type} {r : α → α → Prop} :
    ∀ (l₁ l₂ : List α), l₁.Perm l₂ → l₁.Sorted r → l₂.Sorted r →
      (∀ a ∈ l₁, ∀ b ∈ l₁, r a b → r b a → a = b) → l₁ = l₂ := by
  intro l₁
  induction l₁ with
  | nil =>
    intro l₂ hp _ _ _
    exact (hp.symm.eq_nil).symm
  | cons a t₁ ih =>
    intro l₂ hp hs₁ hs₂ hanti
    cases l₂ with
    | nil => exact absurd hp.eq_nil (by simp)
    | cons b t₂ =>
      have hab : a = b := by
        have ha2 : a ∈ b :: t₂ := hp.subset (List.mem_cons_self a t₁)
        have hb1 : b ∈ a :: t₁ := hp.symm.subset (List.mem_cons_self b t₂)
        rcases List.mem_cons.mp ha2 with h | ha2m
        · exact h
        rcases List.mem_cons.mp hb1 with h | hb1m
        · exact h.symm
        exact hanti a (List.mem_cons_self a t₁) b (List.mem_cons_of_mem a hb1m)
          (List.rel_of_sorted_cons hs₁ b hb1m) (List.rel_of_sorted_cons hs₂ a ha2m)
      subst hab
      rw [ih t₂ hp.cons_inv hs₁.of_cons hs₂.of_cons
        (fun x hx y hy => hanti x (List.mem_cons_of_mem a hx) y (List.mem_cons_of_mem a hy))]

theorem statSort_sorted (rows : List Row) : (statSort rows).Sorted statLE :=
  List.sorted_insertionSort statLE rows

theorem statSort_perm (rows : List Row) : (statSort rows).Perm rows :=
  List.perm_insertionSort statLE rows

theorem statSort_length (rows : List Row) : (statSort rows).length = rows.length :=
  List.length_insertionSort statLE rows

theorem gapSort_sorted (rows : List Row) : (gapSort rows).Sorted gapLE :=
  List.sorted_insertionSort gapLE rows

theorem gapSort_perm (rows : List Row) : (gapSort rows).Perm rows :=
  List.perm_insertionSort gapLE rows

theorem gapSort_length (rows : List Row) : (gapSort rows).length = rows.length :=
  List.length_insertionSort gapLE rows

theorem statOut_eq (t : Table) (hD : t.hasDate = true) (hX : t.hasTransaction = true)
    (hK : t.hasTicker = true) :
    statOut t =
      (List.range (statSort t.rows).length).map (fun i => statRowAt (statSort t.rows) i) := by
  unfold statOut addStatisticalFeatures
  rw [hD, hX, hK]
  rfl

theorem statOut_getD (t : Table) (hD : t.hasDate = true) (hX : t.hasTransaction = true)
    (hK : t.hasTicker = true) (i : Nat) (hi : i < t.rows.length) :
    (statOut t).getD i dStat = statRowAt (statSort t.rows) i := by
  rw [statOut_eq t hD hX hK]
  exact rangeMap_getD dStat _ _ i (by rw [statSort_length]; exact hi)

/-- The current row sits in its entity group at its group index. -/
theorem grp_correspond (s : List Row) (i : Nat) (hi : i < s.length) :
    groupIdx s i < (grpAt s i).length ∧
      (grpAt s i).getD (groupIdx s i) dRow = s.getD i dRow := by
  unfold grpAt groupIdx
  exact filter_take_spec _ dRow s i hi (by simp)

/-- The current row sits in its (insider, ticker) group at its index. -/
theorem gap_correspond (s : List Row) (i : Nat) (hi : i < s.length) :
    gapIdx s i < (gapGrp s i).length ∧
      (gapGrp s i).getD (gapIdx s i) dRow = s.getD i dRow := by
  unfold gapGrp gapIdx
  exact filter_take_spec _ dRow s i hi (by simp)

theorem getLast?_take_cases {α : Type} (d : α) (l : List α) (k : Nat) (hk : k ≤ l.length) :
    (l.take k).getLast? = if k = 0 then none else some (l.getD (k - 1) d) := by
  cases k with
  | zero => simp
  | succ n =>
    rw [if_neg (Nat.succ_ne_zero _)]
    exact getLast?_take_getD d l _ (Nat.succ_pos _) hk

theorem getLast?_filterTake {α : Type} (p : α → Bool) (d : α) (s : List α) (i : Nat) :
    ((s.take i).filter p).getLast? =
      if ((s.take i).filter p).length = 0 then none
      else some ((s.filter p).getD (((s.take i).filter p).length - 1) d) := by
  have hL : ((s.take i).filter p).length ≤ (s.filter p).length := by
    have h := congrArg List.length (filter_take_eq p s i)
    rw [List.length_take] at h
    exact h ▸ Nat.min_le_right _ _
  conv_lhs => rw [filter_take_eq p s i]
  exact getLast?_take_cases d (s.filter p) _ hL

/-- The gap column, characterised through the (insider, ticker) group:
the first row of a group has no predecessor; every later row is the
day difference to the group's previous row. -/
theorem gapAt_eq (s : List Row) (i : Nat) :
    gapAt s i =
      if gapIdx s i = 0 then none
      else some ((s.getD i dRow).date - ((gapGrp s i).getD (gapIdx s i - 1) dRow).date) := by
  unfold gapAt gapIdx gapGrp
  rw [getLast?_filterTake]
  split_ifs <;> rfl

/-- Everything in an entity group carries the group's ticker. -/
theorem grp_ticker (s : List Row) (i : Nat) :
    ∀ a ∈ grpAt s i, a.ticker = (s.getD i dRow).ticker := by
  intro a ha
  have := List.of_mem_filter ha
  simpa using this

/-- In a (ticker, date)-sorted list, dates are monotone along any
same-ticker sublist; in particular every row of a group prefix dates
no later than the prefix's last row. -/
theorem dates_mono_of_sorted (g : List Row) (hg : g.Sorted statLE)
    (htk : ∀ a ∈ g, ∀ b ∈ g, a.ticker = b.ticker)
    (k : Nat) (hk : k < g.length) :
    ∀ x ∈ g.take (k + 1), x.date ≤ (g.getD k dRow).date := by
  intro x hx
  obtain ⟨j, hj, hjx⟩ := List.mem_iff_getElem.mp hx
  have hjk : j ≤ k := by
    rw [List.length_take] at hj
    omega
  have hjg : j < g.length := by omega
  have hxg : x = g[j] := by
    rw [← hjx]
    exact List.getElem_take _
  rw [List.getD_eq_getElem g dRow hk]
  rcases Nat.lt_or_ge j k with hlt | hge
  · have hrel : statLE g[j] g[k] :=
      (List.pairwise_iff_getElem.mp hg) j k hjg hk hlt
    have htkeq : (g[j]).ticker = (g[k]).ticker :=
      htk _ (List.getElem_mem hjg) _ (List.getElem_mem hk)
    rcases hrel with hlt2 | ⟨_, hd⟩
    · rw [htkeq] at hlt2
      exact absurd hlt2 (lt_irrefl _)
    · rw [hxg]; exact hd
  · have : j = k := by omega
    subst this
    rw [hxg]

/-- On a sorted same-ticker group the rolling window of the source —
left bound only, over the row-prefix — coincides with the two-sided
window of the (amended) claim. -/
theorem windowVals_eq_spec (w : Int) (g : List Row) (hg : g.Sorted statLE)
    (htk : ∀ a ∈ g, ∀ b ∈ g, a.ticker = b.ticker) (k : Nat) (hk : k < g.length) :
    windowVals w g k =
      ((g.take (k + 1)).filter
          (fun p => (g.getD k dRow).date - w < p.date ∧ p.date ≤ (g.getD k dRow).date)).map
        Row.tradeValue := by
  unfold windowVals
  congr 1
  apply List.filter_congr
  intro x hx
  have hd := dates_mono_of_sorted g hg htk k hk x hx
  simp only [decide_eq_decide]
  constructor
  · intro h1; exact ⟨h1, hd⟩
  · intro h1; exact h1.1

/-- The row's own value always lies in its window (`w > 0`). -/
theorem windowVals_ne_nil (w : Int) (hw : 0 < w) (g : List Row) (k : Nat)
    (hk : k < g.length) : (windowVals w g k).length ≠ 0 := by
  unfold windowVals
  rw [List.length_map]
  intro h
  rw [List.length_eq_zero] at h
  have h1 : k < (g.take (k + 1)).length := by
    rw [List.length_take]; omega
  have h2 : (g.take (k + 1))[k] ∈ g.take (k + 1) := List.getElem_mem h1
  have h3 : (g.take (k + 1))[k] = g.getD k dRow := by
    rw [List.getD_eq_getElem g dRow hk]
    exact List.getElem_take _
  have h4 : (g.take (k + 1))[k] ∈
      (g.take (k + 1)).filter (fun r => (g.getD k dRow).date - w < r.date) := by
    refine List.mem_filter.mpr ⟨h2, ?_⟩
    rw [h3]
    simp only [decide_eq_true_eq]
    omega
  rw [h] at h4
  exact List.not_mem_nil _ h4

theorem rollingMean_eq_specAt (w : Int) (hw : 0 < w) (s : List Row)
    (hs : s.Sorted statLE) (i : Nat) (hi : i < s.length) :
    rollingMean w (grpAt s i) (groupIdx s i) =
      some (specTrailingMeanAt w (grpAt s i) (groupIdx s i)) := by
  have hc := grp_correspond s i hi
  have hg : (grpAt s i).Sorted statLE := hs.filter _
  have htk : ∀ a ∈ grpAt s i, ∀ b ∈ grpAt s i, a.ticker = b.ticker := by
    intro a ha b hb
    rw [grp_ticker s i a ha, grp_ticker s i b hb]
  have hW := windowVals_eq_spec w (grpAt s i) hg htk (groupIdx s i) hc.1
  have hne := windowVals_ne_nil w hw (grpAt s i) (groupIdx s i) hc.1
  unfold rollingMean specTrailingMeanAt
  rw [if_neg hne, hW]

theorem length_one_eq {α : Type} (d : α) (l : List α) (h : l.length = 1) :
    l = [l.getD 0 d] := by
  cases l with
  | nil => simp at h
  | cons a tl =>
    cases tl with
    | nil => simp
    | cons b tl2 => simp at h

theorem rollingMean_single (w : Int) (hw : 0 < w) (g : List Row) (hlen : g.length = 1) :
    rollingMean w g 0 = some ((g.getD 0 dRow).tradeValue) := by
  obtain ⟨r, hr⟩ : ∃ r, g = [r] := by
    cases g with
    | nil => simp at hlen
    | cons a tl =>
      cases tl with
      | nil => exact ⟨a, rfl⟩
      | cons b tl2 => simp at hlen
  subst hr
  unfold rollingMean windowVals
  have hp : decide (r.date - w < r.date) = true := by
    simp only [decide_eq_true_eq]
    omega
  simp only [List.getD_cons_zero, List.take_succ_cons, List.take_nil, List.filter_cons,
    List.filter_nil, hp, if_true, List.map_cons, List.map_nil, List.length_cons,
    List.length_nil, List.sum_cons, List.sum_nil]
  norm_num

/-! ### Claim C1 -/

/-- Two same-day trades of one ticker: trade values 0 and 2. -/
def rowTie0 : Row := ⟨1, 0, 1, "Buy", 0, 1⟩

def rowTie2 : Row := ⟨1, 0, 1, "Buy", 2, 1⟩

def tblTie : Table := ⟨true, true, true, true, [rowTie0, rowTie2]⟩

/-- C1, counterexample: with two rows of the same entity on the same
day, the first row's `trade_value_7d_mean` is its own value `0`, while
the claim's average over all rows of the group with timestamp in
`(t − 7, t]` is `1` — the rolling window only sees rows at or before
the current one in the sorted order, not later tied timestamps. -/
theorem c1_counterexample :
    ((statOut tblTie).getD 0 dStat).mean7 = some 0 ∧
      specTrailingMean 7 (grpAt (statSort tblTie.rows) 0)
          ((statSort tblTie.rows).getD 0 dRow).date = 1 ∧
      some (0 : ℚ) ≠ some (1 : ℚ) := by
  have hsort : statSort tblTie.rows = [rowTie0, rowTie2] := by
    norm_num [statSort, List.insertionSort, List.orderedInsert, statLE, tblTie,
      rowTie0, rowTie2]
  have h := statOut_getD tblTie rfl rfl rfl 0 (by norm_num [tblTie])
  rw [h]
  refine ⟨?_, ?_, by norm_num⟩
  · simp only [statRowAt, hsort]
    norm_num [rollingMean, windowVals, grpAt, groupIdx, rowTie0, rowTie2,
      Row.tradeValue, List.filter, dRow]
  · simp only [hsort]
    norm_num [specTrailingMean, grpAt, rowTie0, rowTie2, Row.tradeValue,
      List.filter, dRow]

/-- C1 (amended): each output row's `trade_value_7d_mean` and
`trade_value_30d_mean` equal the average of `trade_value` over exactly
the rows of the same entity group with timestamp in `(t − window, t]`
that lie at or before the row in the group's timestamp-ascending
(stable) order — the only change the counterexample forces — and for a
single-row group both trailing means equal that row's `trade_value`. -/
theorem c1_trailing_mean_amended (t : Table) (hD : t.hasDate = true)
    (hX : t.hasTransaction = true) (hK : t.hasTicker = true)
    (i : Nat) (hi : i < t.rows.length) :
    ((statOut t).getD i dStat).mean7 =
        some (specTrailingMeanAt 7 (grpAt (statSort t.rows) i) (groupIdx (statSort t.rows) i)) ∧
      ((statOut t).getD i dStat).mean30 =
        some (specTrailingMeanAt 30 (grpAt (statSort t.rows) i) (groupIdx (statSort t.rows) i)) ∧
      ((grpAt (statSort t.rows) i).length = 1 →
        ((statOut t).getD i dStat).mean7 = some (((statSort t.rows).getD i dRow).tradeValue) ∧
          ((statOut t).getD i dStat).mean30 = some (((statSort t.rows).getD i dRow).tradeValue)) := by
  have hi2 : i < (statSort t.rows).length := by rw [statSort_length]; exact hi
  rw [statOut_getD t hD hX hK i hi]
  simp only [statRowAt]
  refine ⟨?_, ?_, ?_⟩
  · exact rollingMean_eq_specAt 7 (by norm_num) _ (statSort_sorted _) i hi2
  · exact rollingMean_eq_specAt 30 (by norm_num) _ (statSort_sorted _) i hi2
  · intro hone
    have hc := grp_correspond (statSort t.rows) i hi2
    have hk0 : groupIdx (statSort t.rows) i = 0 := by omega
    have hc2 := hc.2
    rw [hk0] at hc2
    rw [hk0, rollingMean_single 7 (by norm_num) _ hone,
      rollingMean_single 30 (by norm_num) _ hone, hc2]
    exact ⟨rfl, rfl⟩

/-- A one-row table for witnesses. -/
def rowSingle : Row := ⟨2, 10, 2, "Buy", 3, 2⟩

def tblSingle : Table := ⟨true, true, true, true, [rowSingle]⟩

/-- Witness for C1's amended theorem at a concrete single-row table. -/
theorem c1_witness :
    tblSingle.hasDate = true ∧ tblSingle.hasTransaction = true ∧
      tblSingle.hasTicker = true ∧ 0 < tblSingle.rows.length ∧
      (((statOut tblSingle).getD 0 dStat).mean7 =
          some (specTrailingMeanAt 7 (grpAt (statSort tblSingle.rows) 0)
              (groupIdx (statSort tblSingle.rows) 0)) ∧
        ((statOut tblSingle).getD 0 dStat).mean30 =
          some (specTrailingMeanAt 30 (grpAt (statSort tblSingle.rows) 0)
              (groupIdx (statSort tblSingle.rows) 0)) ∧
        ((grpAt (statSort tblSingle.rows) 0).length = 1 →
          ((statOut tblSingle).getD 0 dStat).mean7 =
              some (((statSort tblSingle.rows).getD 0 dRow).tradeValue) ∧
            ((statOut tblSingle).getD 0 dStat).mean30 =
              some (((statSort tblSingle.rows).getD 0 dRow).tradeValue))) :=
  ⟨rfl, rfl, rfl, by norm_num [tblSingle],
    c1_trailing_mean_amended tblSingle rfl rfl rfl 0 (by norm_num [tblSingle])⟩

/-! ### Claim C2 -/

theorem list_sum_const (xs : List ℚ) (c : ℚ) (h : ∀ x ∈ xs, x = c) :
    xs.sum = (xs.length : ℚ) * c := by
  induction xs with
  | nil => simp
  | cons a tl ih =>
    simp only [List.sum_cons, List.length_cons]
    rw [h a (List.mem_cons_self a tl), ih (fun x hx => h x (List.mem_cons_of_mem _ hx))]
    push_cast
    ring

theorem rollingVar_none_iff (g : List Row) (k : Nat) :
    rollingVar g k = none ↔ (windowVals 30 g k).length < 2 := by
  unfold rollingVar
  split_ifs with h
  · simp [h]
  · simp [h]

theorem stdReplaced_none_iff (g : List Row) (k : Nat) :
    stdReplaced g k = none ↔ rollingVar g k = none ∨ rollingVar g k = some 0 := by
  unfold stdReplaced
  split
  next heq => simp [heq]
  next w heq =>
    rw [heq]
    split_ifs with hw
    · subst hw; simp
    · simp [hw]

theorem stdReplaced_some_iff (g : List Row) (k : Nat) (v : ℚ) :
    stdReplaced g k = some v ↔ rollingVar g k = some v ∧ v ≠ 0 := by
  unfold stdReplaced
  split
  next heq => simp [heq]
  next w heq =>
    rw [heq]
    split_ifs with hw
    · subst hw
      simp only [Option.some.injEq]
      constructor
      · intro h; exact absurd h (by simp)
      · rintro ⟨h1, h2⟩; exact absurd h1.symm h2
    · simp only [Option.some.injEq]
      constructor
      · intro h; subst h; exact ⟨rfl, hw⟩
      · rintro ⟨h1, _⟩; exact h1

theorem zscoreCell_none_iff (g : List Row) (k : Nat) :
    zscoreCell g k = none ↔ stdReplaced g k = none := by
  unfold zscoreCell
  cases h : stdReplaced g k <;> simp [h]

theorem rollingVar_nonneg (g : List Row) (k : Nat) (v : ℚ)
    (h : rollingVar g k = some v) : 0 ≤ v := by
  unfold rollingVar at h
  by_cases hlen : (windowVals 30 g k).length < 2
  · rw [if_pos hlen] at h
    exact absurd h (by simp)
  · rw [if_neg hlen] at h
    injection h with h
    rw [← h]
    apply div_nonneg
    · apply List.sum_nonneg
      intro x hx
      obtain ⟨y, _, rfl⟩ := List.mem_map.mp hx
      exact sq_nonneg _
    · have h2 : (2 : ℚ) ≤ ((windowVals 30 g k).length : ℚ) := by
        exact_mod_cast (by omega : 2 ≤ (windowVals 30 g k).length)
      linarith

theorem rollingVar_const (g : List Row) (k : Nat) (c : ℚ)
    (hlen : ¬ (windowVals 30 g k).length < 2)
    (h : ∀ x ∈ windowVals 30 g k, x = c) : rollingVar g k = some 0 := by
  unfold rollingVar
  rw [if_neg hlen]
  have hn : ((windowVals 30 g k).length : ℚ) ≠ 0 := by
    exact_mod_cast (by omega : (windowVals 30 g k).length ≠ 0)
  have hmean : (windowVals 30 g k).sum / ((windowVals 30 g k).length : ℚ) = c := by
    rw [list_sum_const _ c h]
    field_simp
  have hz : ((windowVals 30 g k).map
      (fun x =>
        (x - (windowVals 30 g k).sum / ((windowVals 30 g k).length : ℚ)) ^ 2)).sum = 0 := by
    apply List.sum_eq_zero
    intro x hx
    obtain ⟨y, hy, rfl⟩ := List.mem_map.mp hx
    rw [h y hy, hmean]
    ring
  rw [hz]
  simp

theorem windowVals_mem (w : Int) (g : List Row) (k : Nat) :
    ∀ x ∈ windowVals w g k, ∃ r, r ∈ g ∧ x = r.tradeValue := by
  intro x hx
  unfold windowVals at hx
  obtain ⟨r, hr, rfl⟩ := List.mem_map.mp hx
  exact ⟨r, List.mem_of_mem_take (List.mem_filter.mp hr).1, rfl⟩

/-- C2: the z-score cell is the missing sentinel exactly when the
30-day window holds a single point (sample std undefined) or has
sample variance exactly 0; whenever a z-score is produced, it equals
`(trade_value − μ) / σ` with `μ` the window mean and `σ = √variance`
strictly positive (so the computation never divides by zero and never
produces an infinity); and a table whose rows all carry one common
`trade_value` (in particular a group of ≥ 2 identical values) yields
the missing sentinel everywhere. -/
theorem c2_zscore_missing (t : Table) (hD : t.hasDate = true)
    (hX : t.hasTransaction = true) (hK : t.hasTicker = true)
    (i : Nat) (hi : i < t.rows.length) (c : ℚ) :
    (((statOut t).getD i dStat).zscore = none ↔
        ((windowVals 30 (grpAt (statSort t.rows) i) (groupIdx (statSort t.rows) i)).length < 2 ∨
          rollingVar (grpAt (statSort t.rows) i) (groupIdx (statSort t.rows) i) = some 0)) ∧
      (∀ v, stdReplaced (grpAt (statSort t.rows) i) (groupIdx (statSort t.rows) i) = some v →
        0 < v ∧ Real.sqrt ((v : ℚ) : ℝ) ≠ 0 ∧
          ((statOut t).getD i dStat).zscore =
            some (((((statSort t.rows).getD i dRow).tradeValue -
                  (windowVals 30 (grpAt (statSort t.rows) i) (groupIdx (statSort t.rows) i)).sum /
                    ((windowVals 30 (grpAt (statSort t.rows) i)
                        (groupIdx (statSort t.rows) i)).length : ℚ) : ℚ) : ℝ) /
              Real.sqrt ((v : ℚ) : ℝ))) ∧
      ((∀ r ∈ t.rows, r.tradeValue = c) → ((statOut t).getD i dStat).zscore = none) := by
  have hi2 : i < (statSort t.rows).length := by rw [statSort_length]; exact hi
  rw [statOut_getD t hD hX hK i hi]
  simp only [statRowAt]
  refine ⟨?_, ?_, ?_⟩
  · rw [zscoreCell_none_iff, stdReplaced_none_iff, rollingVar_none_iff]
  · intro v hv
    rw [stdReplaced_some_iff] at hv
    obtain ⟨hvar, hvne⟩ := hv
    have hpos : 0 < v := lt_of_le_of_ne (rollingVar_nonneg _ _ _ hvar) (Ne.symm hvne)
    have hsq : Real.sqrt ((v : ℚ) : ℝ) ≠ 0 := by
      have hpr : (0 : ℝ) < ((v : ℚ) : ℝ) := by exact_mod_cast hpos
      exact ne_of_gt (Real.sqrt_pos.mpr hpr)
    refine ⟨hpos, hsq, ?_⟩
    have hlen : ¬ (windowVals 30 (grpAt (statSort t.rows) i)
        (groupIdx (statSort t.rows) i)).length < 2 := by
      intro hcon
      have hnone := (rollingVar_none_iff _ _).mpr hcon
      rw [hnone] at hvar
      exact absurd hvar (by simp)
    have hmean : rollingMean 30 (grpAt (statSort t.rows) i) (groupIdx (statSort t.rows) i)
        = some ((windowVals 30 (grpAt (statSort t.rows) i)
              (groupIdx (statSort t.rows) i)).sum /
            ((windowVals 30 (grpAt (statSort t.rows) i)
                (groupIdx (statSort t.rows) i)).length : ℚ)) := by
      unfold rollingMean
      rw [if_neg (by omega)]
    have hstd : stdReplaced (grpAt (statSort t.rows) i) (groupIdx (statSort t.rows) i)
        = some v := (stdReplaced_some_iff _ _ _).mpr ⟨hvar, hvne⟩
    have hbase := (grp_correspond (statSort t.rows) i hi2).2
    unfold zscoreCell
    rw [hstd, Option.map_some', hmean, hbase]
    rfl
  · intro hconst
    rw [zscoreCell_none_iff, stdReplaced_none_iff]
    by_cases hlen : (windowVals 30 (grpAt (statSort t.rows) i)
        (groupIdx (statSort t.rows) i)).length < 2
    · exact Or.inl ((rollingVar_none_iff _ _).mpr hlen)
    · refine Or.inr (rollingVar_const _ _ c hlen ?_)
      intro x hx
      obtain ⟨r, hr, rfl⟩ := windowVals_mem _ _ _ x hx
      have hr2 : r ∈ statSort t.rows := (List.mem_filter.mp hr).1
      exact hconst r ((statSort_perm t.rows).mem_iff.mp hr2)

/-- Two same-entity rows, one day apart, with identical trade value 6. -/
def rowZ0 : Row := ⟨1, 0, 1, "Buy", 3, 2⟩

def rowZ1 : Row := ⟨1, 1, 1, "Buy", 2, 3⟩

def tblZ : Table := ⟨true, true, true, true, [rowZ0, rowZ1]⟩

/-- Witness for C2: a group of two rows with identical `trade_value`
yields the missing z-score sentinel. -/
theorem c2_witness :
    0 < tblZ.rows.length ∧ (∀ r ∈ tblZ.rows, r.tradeValue = 6) ∧
      ((statOut tblZ).getD 0 dStat).zscore = none := by
  have hc : ∀ r ∈ tblZ.rows, r.tradeValue = 6 := by
    norm_num [tblZ, rowZ0, rowZ1, Row.tradeValue]
  exact ⟨by norm_num [tblZ], hc,
    (c2_zscore_missing tblZ rfl rfl rfl 0 (by norm_num [tblZ]) 6).2.2 hc⟩

/-! ### Claim C3 -/

/-- A one-row table whose single trade value is 4. -/
def rowP : Row := ⟨1, 0, 1, "Buy", 2, 2⟩

def tblP : Table := ⟨true, true, true, true, [rowP]⟩

/-- C3, counterexample: in a single-row group the code's percentile
rank (`rank(pct=True)`, average method) is `1`, while the claim's
formula `(#{value < v} + 0.5 * #{value = v}) / N` gives `1/2`: the
claim's formula is missing the `+ 0.5` of the average-rank
convention. -/
theorem c3_counterexample :
    ((statOut tblP).getD 0 dStat).pctRank = 1 ∧
      claimPctRank ((grpAt (statSort tblP.rows) 0).map Row.tradeValue)
          (((statSort tblP.rows).getD 0 dRow).tradeValue) = 1 / 2 ∧
      (1 : ℚ) ≠ 1 / 2 := by
  have hsort : statSort tblP.rows = [rowP] := by
    norm_num [statSort, List.insertionSort, List.orderedInsert, tblP]
  have h := statOut_getD tblP rfl rfl rfl 0 (by norm_num [tblP])
  rw [h]
  simp only [statRowAt, hsort]
  refine ⟨?_, ?_, by norm_num⟩
  · norm_num [pctRankVal, grpAt, groupIdx, rowP, Row.tradeValue, dRow,
      List.filter, List.countP_cons, List.countP_nil]
  · norm_num [claimPctRank, grpAt, rowP, Row.tradeValue, dRow, List.filter,
      List.countP_cons, List.countP_nil]

/-- C3 (amended): the percentile-rank column equals
`(#{value < v} + 0.5 * (#{value = v} + 1)) / N` over the entity group
— the average-rank convention; relative to the claim the tie count
gains `+ 1` (equivalently the formula gains `+ 0.5`). -/
theorem c3_pct_rank_amended (t : Table) (hD : t.hasDate = true)
    (hX : t.hasTransaction = true) (hK : t.hasTicker = true)
    (i : Nat) (hi : i < t.rows.length) :
    0 < ((grpAt (statSort t.rows) i).map Row.tradeValue).length ∧
      ((statOut t).getD i dStat).pctRank =
        ((((grpAt (statSort t.rows) i).map Row.tradeValue).countP
              (fun x => x < ((statSort t.rows).getD i dRow).tradeValue) : ℚ) +
            ((((grpAt (statSort t.rows) i).map Row.tradeValue).countP
                  (fun x => x = ((statSort t.rows).getD i dRow).tradeValue) : ℚ) + 1) / 2) /
          (((grpAt (statSort t.rows) i).map Row.tradeValue).length : ℚ) := by
  have hi2 : i < (statSort t.rows).length := by rw [statSort_length]; exact hi
  have hc := grp_correspond (statSort t.rows) i hi2
  constructor
  · rw [List.length_map]; omega
  · rw [statOut_getD t hD hX hK i hi]
    simp only [statRowAt]
    rfl

/-- Witness for C3's amended theorem on the one-row table. -/
theorem c3_witness :
    0 < tblP.rows.length ∧
      (0 < ((grpAt (statSort tblP.rows) 0).map Row.tradeValue).length ∧
        ((statOut tblP).getD 0 dStat).pctRank =
          ((((grpAt (statSort tblP.rows) 0).map Row.tradeValue).countP
                (fun x => x < ((statSort tblP.rows).getD 0 dRow).tradeValue) : ℚ) +
              ((((grpAt (statSort tblP.rows) 0).map Row.tradeValue).countP
                    (fun x => x = ((statSort tblP.rows).getD 0 dRow).tradeValue) : ℚ) + 1) / 2) /
            (((grpAt (statSort tblP.rows) 0).map Row.tradeValue).length : ℚ)) :=
  ⟨by norm_num [tblP], c3_pct_rank_amended tblP rfl rfl rfl 0 (by norm_num [tblP])⟩

/-! ### Claim C4 -/

/-- C4: `unusual_volume` is `1` iff the row's `trade_value` strictly
exceeds the 95th percentile (linear interpolation between order
statistics) of `trade_value` over the row's entire entity group — a
single group-wide threshold, not a trailing one — and `0` otherwise. -/
theorem c4_unusual_volume (t : Table) (hD : t.hasDate = true)
    (hX : t.hasTransaction = true) (hK : t.hasTicker = true)
    (i : Nat) (hi : i < t.rows.length) :
    (((statOut t).getD i dStat).unusualVolume = 1 ↔
        quantile95 ((grpAt (statSort t.rows) i).map Row.tradeValue) <
          ((statSort t.rows).getD i dRow).tradeValue) ∧
      (((statOut t).getD i dStat).unusualVolume = 1 ∨
        ((statOut t).getD i dStat).unusualVolume = 0) := by
  rw [statOut_getD t hD hX hK i hi]
  simp only [statRowAt]
  constructor
  · split_ifs with h
    · exact iff_of_true rfl h
    · exact iff_of_false (by norm_num) h
  · split_ifs with h
    · exact Or.inl rfl
    · exact Or.inr rfl

/-- Two trades of entity 3 with distinct days and values 1 and 10. -/
def rowQ0 : Row := ⟨3, 0, 1, "Buy", 1, 1⟩

def rowQ1 : Row := ⟨3, 50, 1, "Buy", 10, 1⟩

def tblQ : Table := ⟨true, true, true, true, [rowQ0, rowQ1]⟩

/-- Witness for C4 at the group's larger row. -/
theorem c4_witness :
    1 < tblQ.rows.length ∧
      ((((statOut tblQ).getD 1 dStat).unusualVolume = 1 ↔
          quantile95 ((grpAt (statSort tblQ.rows) 1).map Row.tradeValue) <
            ((statSort tblQ.rows).getD 1 dRow).tradeValue) ∧
        (((statOut tblQ).getD 1 dStat).unusualVolume = 1 ∨
          ((statOut tblQ).getD 1 dStat).unusualVolume = 0)) :=
  ⟨by norm_num [tblQ], c4_unusual_volume tblQ rfl rfl rfl 1 (by norm_num [tblQ])⟩

/-! ### Claim C10 -/

theorem countP_lt_add_eq_le (xs : List ℚ) (v : ℚ) :
    xs.countP (fun x => x < v) + xs.countP (fun x => x = v) ≤ xs.length := by
  have h := List.length_eq_countP_add_countP (fun x => decide (x < v)) (l := xs)
  have h2 : xs.countP (fun x => x = v) ≤
      xs.countP (fun a => decide ¬(decide (a < v) = true)) := by
    apply List.countP_mono_left
    intro a _ ha
    simp only [decide_eq_true_eq] at ha ⊢
    rw [ha]
    exact lt_irrefl v
  omega

theorem countP_eq_pos (xs : List ℚ) (v : ℚ) (hv : v ∈ xs) :
    0 < xs.countP (fun x => x = v) := by
  rw [List.countP_pos_iff]
  exact ⟨v, hv, by simp⟩

theorem pctRankVal_pos (xs : List ℚ) (v : ℚ) (hv : v ∈ xs) :
    0 < pctRankVal xs v := by
  unfold pctRankVal
  have hN : (0 : ℚ) < (xs.length : ℚ) := by
    exact_mod_cast List.length_pos_of_mem hv
  apply div_pos ?_ hN
  positivity

theorem pctRankVal_le_one (xs : List ℚ) (v : ℚ) (hv : v ∈ xs) :
    pctRankVal xs v ≤ 1 := by
  unfold pctRankVal
  have hN : (0 : ℚ) < (xs.length : ℚ) := by
    exact_mod_cast List.length_pos_of_mem hv
  rw [div_le_one hN]
  have hle := countP_lt_add_eq_le xs v
  have hE := countP_eq_pos xs v hv
  have hleQ : (xs.countP (fun x => x < v) : ℚ) + (xs.countP (fun x => x = v) : ℚ) ≤
      (xs.length : ℚ) := by exact_mod_cast hle
  have hEQ : (1 : ℚ) ≤ (xs.countP (fun x => x = v) : ℚ) := by exact_mod_cast hE
  linarith

theorem pctRankVal_unique_max (xs : List ℚ) (v : ℚ) (hv : v ∈ xs)
    (hmax : ∀ x ∈ xs, x ≤ v) (huniq : xs.countP (fun x => x = v) = 1) :
    pctRankVal xs v = 1 := by
  have h := List.length_eq_countP_add_countP (fun x => decide (x < v)) (l := xs)
  have hcg : xs.countP (fun a => decide ¬(decide (a < v) = true)) =
      xs.countP (fun x => x = v) := by
    apply List.countP_congr
    intro a ha
    simp only [decide_eq_true_eq]
    constructor
    · intro h1
      exact le_antisymm (hmax a ha) (not_lt.mp h1)
    · intro h1
      rw [h1]
      exact lt_irrefl v
  rw [hcg, huniq] at h
  have hN : (0 : ℚ) < (xs.length : ℚ) := by
    exact_mod_cast List.length_pos_of_mem hv
  unfold pctRankVal
  rw [huniq]
  have hQ : (xs.countP (fun x => x < v) : ℚ) = (xs.length : ℚ) - 1 := by
    have h2 : ((xs.length : ℚ)) = (xs.countP (fun x => x < v) : ℚ) + 1 := by
      exact_mod_cast h
    linarith
  rw [hQ]
  push_cast
  field_simp

/-- The current row itself belongs to its entity group. -/
theorem grp_self_mem (s : List Row) (i : Nat) (hi : i < s.length) :
    s.getD i dRow ∈ grpAt s i := by
  have hc := grp_correspond s i hi
  rw [← hc.2, List.getD_eq_getElem _ dRow hc.1]
  exact List.getElem_mem hc.1

/-- Two same-entity rows on distinct days with the same value 5. -/
def rowM0 : Row := ⟨4, 0, 1, "Buy", 5, 1⟩

def rowM1 : Row := ⟨4, 1, 1, "Buy", 5, 1⟩

def tblM : Table := ⟨true, true, true, true, [rowM0, rowM1]⟩

/-- C10, counterexample: with a tied maximum (two rows of value 5),
a row holding the group maximum has percentile rank 3/4, not 1. -/
theorem c10_counterexample :
    (grpAt (statSort tblM.rows) 0).map Row.tradeValue = [5, 5] ∧
      ((statSort tblM.rows).getD 0 dRow).tradeValue = 5 ∧
      ((statOut tblM).getD 0 dStat).pctRank = 3 / 4 ∧ (3 / 4 : ℚ) ≠ 1 := by
  have hsort : statSort tblM.rows = [rowM0, rowM1] := by
    norm_num [statSort, List.insertionSort, List.orderedInsert, statLE, tblM,
      rowM0, rowM1]
  have h := statOut_getD tblM rfl rfl rfl 0 (by norm_num [tblM])
  rw [h]
  simp only [statRowAt, hsort]
  refine ⟨?_, ?_, ?_, by norm_num⟩
  · norm_num [grpAt, rowM0, rowM1, Row.tradeValue, dRow, List.filter]
  · norm_num [rowM0, Row.tradeValue, dRow]
  · norm_num [pctRankVal, grpAt, groupIdx, rowM0, rowM1, Row.tradeValue, dRow,
      List.filter, List.countP_cons, List.countP_nil]

/-- C10 (amended): every percentile rank lies in `(0, 1]`, and a row
holding its group's maximum `trade_value` has rank exactly `1` when
that maximum is attained by exactly one row of the group (with a tied
maximum the rank falls short of 1, as the counterexample shows). -/
theorem c10_pct_rank_bounds (t : Table) (hD : t.hasDate = true)
    (hX : t.hasTransaction = true) (hK : t.hasTicker = true)
    (i : Nat) (hi : i < t.rows.length) :
    0 < ((statOut t).getD i dStat).pctRank ∧
      ((statOut t).getD i dStat).pctRank ≤ 1 ∧
      ((∀ x ∈ (grpAt (statSort t.rows) i).map Row.tradeValue,
            x ≤ ((statSort t.rows).getD i dRow).tradeValue) →
        ((grpAt (statSort t.rows) i).map Row.tradeValue).countP
            (fun x => x = ((statSort t.rows).getD i dRow).tradeValue) = 1 →
        ((statOut t).getD i dStat).pctRank = 1) := by
  have hi2 : i < (statSort t.rows).length := by rw [statSort_length]; exact hi
  have hv : ((statSort t.rows).getD i dRow).tradeValue ∈
      (grpAt (statSort t.rows) i).map Row.tradeValue :=
    List.mem_map_of_mem Row.tradeValue (grp_self_mem (statSort t.rows) i hi2)
  rw [statOut_getD t hD hX hK i hi]
  simp only [statRowAt]
  exact ⟨pctRankVal_pos _ _ hv, pctRankVal_le_one _ _ hv,
    fun hmax huniq => pctRankVal_unique_max _ _ hv hmax huniq⟩

/-- Witness for C10 on the two-row distinct-value table. -/
theorem c10_witness :
    1 < tblQ.rows.length ∧
      (0 < ((statOut tblQ).getD 1 dStat).pctRank ∧
        ((statOut tblQ).getD 1 dStat).pctRank ≤ 1 ∧
        ((∀ x ∈ (grpAt (statSort tblQ.rows) 1).map Row.tradeValue,
              x ≤ ((statSort tblQ.rows).getD 1 dRow).tradeValue) →
          ((grpAt (statSort tblQ.rows) 1).map Row.tradeValue).countP
              (fun x => x = ((statSort tblQ.rows).getD 1 dRow).tradeValue) = 1 →
          ((statOut tblQ).getD 1 dStat).pctRank = 1)) :=
  ⟨by norm_num [tblQ], c10_pct_rank_bounds tblQ rfl rfl rfl 1 (by norm_num [tblQ])⟩

/-! ### Claim C5 -/

theorem addDateFeatures_gap (t : Table) (hD : t.hasDate = true)
    (hI : t.hasInsider = true) (hK : t.hasTicker = true) :
    addDateFeatures t =
      .ok ((List.range (gapSort t.rows).length).map (fun i =>
        { base := (gapSort t.rows).getD i dRow
          year := yearOf ((gapSort t.rows).getD i dRow).date
          month := monthOf ((gapSort t.rows).getD i dRow).date
          day := dayOf ((gapSort t.rows).getD i dRow).date
          weekday := weekdayOf ((gapSort t.rows).getD i dRow).date
          daysSinceLastTrade := gapAt (gapSort t.rows) i })) := by
  unfold addDateFeatures dateAugment
  rw [hD, hI, hK]
  rw [if_neg (by simp), if_pos ⟨rfl, rfl⟩]
  simp only [id_eq, List.map_id]
  rfl

theorem addDateFeatures_noInsider (t : Table) (hD : t.hasDate = true)
    (hI : t.hasInsider = false) :
    addDateFeatures t =
      .ok (t.rows.map (fun r =>
        ⟨r, yearOf r.date, monthOf r.date, dayOf r.date, weekdayOf r.date, none⟩)) := by
  unfold addDateFeatures dateAugment
  rw [hD, hI]
  rw [if_neg (by simp), if_neg (by simp)]
  simp only [id_eq]

/-- C5: with the insider column present (and the guaranteed entity and
timestamp columns), `days_since_last_trade` is computed per
(insider, ticker) group of the (insider, ticker, date)-sorted table:
the first row of each group gets the missing sentinel and every later
row gets the day difference to that group's previous row — rows of a
different insider on the same entity never enter the group.  With the
insider column absent from the schema, every row gets the missing
sentinel and no error is raised. -/
theorem c5_gap (t : Table) (hD : t.hasDate = true) (hK : t.hasTicker = true) :
    (t.hasInsider = true →
      ∀ i, i < t.rows.length →
        ((dateOut t).getD i dGap).daysSinceLastTrade =
          (if gapIdx (gapSort t.rows) i = 0 then none
           else some (((gapSort t.rows).getD i dRow).date -
             ((gapGrp (gapSort t.rows) i).getD (gapIdx (gapSort t.rows) i - 1) dRow).date))) ∧
      (t.hasInsider = false →
        addDateFeatures t = .ok (t.rows.map (fun r =>
          ⟨r, yearOf r.date, monthOf r.date, dayOf r.date, weekdayOf r.date, none⟩))) := by
  constructor
  · intro hI i hi
    have hlt : i < (gapSort t.rows).length := by rw [gapSort_length]; exact hi
    unfold dateOut
    rw [addDateFeatures_gap t hD hI hK]
    simp only [Except.toOption, Option.getD_some]
    rw [rangeMap_getD dGap _ _ i hlt]
    exact gapAt_eq (gapSort t.rows) i
  · intro hI
    exact addDateFeatures_noInsider t hD hI

/-- The spec's gap example: insider 1 trades entity 7 on days 1, 3, 10;
insider 2 trades the same entity on day 5. -/
def rowGA1 : Row := ⟨7, 1, 1, "Buy", 1, 1⟩

def rowGA3 : Row := ⟨7, 3, 1, "Buy", 1, 1⟩

def rowGA10 : Row := ⟨7, 10, 1, "Buy", 1, 1⟩

def rowGB5 : Row := ⟨7, 5, 2, "Buy", 1, 1⟩

def tblG : Table := ⟨true, true, true, true, [rowGA1, rowGA3, rowGA10, rowGB5]⟩

/-- Witness for C5: the gap sequence of the example is
`[missing, 2, 7]` for insider 1 and `missing` for insider 2's single
trade, untouched by the other insider's day-5 trade. -/
theorem c5_witness :
    2 < tblG.rows.length ∧
      ((dateOut tblG).getD 2 dGap).daysSinceLastTrade =
        (if gapIdx (gapSort tblG.rows) 2 = 0 then none
         else some (((gapSort tblG.rows).getD 2 dRow).date -
           ((gapGrp (gapSort tblG.rows) 2).getD (gapIdx (gapSort tblG.rows) 2 - 1) dRow).date)) ∧
      ((dateOut tblG).getD 0 dGap).daysSinceLastTrade = none ∧
      ((dateOut tblG).getD 1 dGap).daysSinceLastTrade = some 2 ∧
      ((dateOut tblG).getD 2 dGap).daysSinceLastTrade = some 7 ∧
      ((dateOut tblG).getD 3 dGap).daysSinceLastTrade = none := by
  refine ⟨by norm_num [tblG], (c5_gap tblG rfl rfl).1 rfl 2 (by norm_num [tblG]),
    ?_, ?_, ?_, ?_⟩ <;> decide

/-! ### Claim C6 -/

/-- Two same-day rows of entity 9, in the two possible input orders. -/
def rowN0 : Row := ⟨9, 0, 1, "Buy", 0, 1⟩

def rowN2 : Row := ⟨9, 0, 1, "Buy", 2, 1⟩

def tblPermA : Table := ⟨true, true, true, true, [rowN0, rowN2]⟩

def tblPermB : Table := ⟨true, true, true, true, [rowN2, rowN0]⟩

/-- C6, counterexample: two row-permutations of one table (two same-day
rows of one entity) give different Windowed Statistics Engine outputs —
different even as multisets of (row, 7-day-mean) pairs — because a tied
timestamp makes the trailing window depend on the tie order, which the
stable sort preserves from the input. -/
theorem c6_counterexample :
    tblPermB.rows.Perm tblPermA.rows ∧
      tblPermB.hasDate = tblPermA.hasDate ∧
      tblPermB.hasTicker = tblPermA.hasTicker ∧
      tblPermB.hasTransaction = tblPermA.hasTransaction ∧
      tblPermB.hasInsider = tblPermA.hasInsider ∧
      (statOut tblPermA).map (fun sr => (sr.base, sr.mean7)) ≠
        (statOut tblPermB).map (fun sr => (sr.base, sr.mean7)) ∧
      ¬ ((statOut tblPermA).map (fun sr => (sr.base, sr.mean7))).Perm
          ((statOut tblPermB).map (fun sr => (sr.base, sr.mean7))) := by
  have hsortA : statSort tblPermA.rows = [rowN0, rowN2] := by
    norm_num [statSort, List.insertionSort, List.orderedInsert, statLE, tblPermA,
      rowN0, rowN2]
  have hsortB : statSort tblPermB.rows = [rowN2, rowN0] := by
    norm_num [statSort, List.insertionSort, List.orderedInsert, statLE, tblPermB,
      rowN0, rowN2]
  have hA : (statOut tblPermA).map (fun sr => (sr.base, sr.mean7)) =
      [(rowN0, some 0), (rowN2, some 1)] := by
    rw [statOut_eq tblPermA rfl rfl rfl, hsortA]
    norm_num [statRowAt, rollingMean, windowVals, grpAt, groupIdx, rowN0, rowN2,
      Row.tradeValue, List.filter, dRow, List.range_succ]
  have hB : (statOut tblPermB).map (fun sr => (sr.base, sr.mean7)) =
      [(rowN2, some 2), (rowN0, some 1)] := by
    rw [statOut_eq tblPermB rfl rfl rfl, hsortB]
    norm_num [statRowAt, rollingMean, windowVals, grpAt, groupIdx, rowN0, rowN2,
      Row.tradeValue, List.filter, dRow, List.range_succ]
  rw [hA, hB]
  refine ⟨by decide, rfl, rfl, rfl, rfl, by decide, by decide⟩

/-- C6 (amended): both engines are deterministic, and row-order
independent whenever their own sort keys are collision-free: for two
tables with the same schema flags holding permutations of the same
rows, the Windowed Statistics Engine outputs coincide when no two
distinct rows share (ticker, date), and the Temporal Gap Engine
outputs coincide already when no two distinct rows share
(insider, ticker, date) and the gap path is taken (insider and ticker
columns present) — each engine needs only its own condition; with tied
sort keys the outputs may differ, as the counterexample shows. -/
theorem c6_order_independence (t1 t2 : Table)
    (hperm : t1.rows.Perm t2.rows)
    (hfD : t1.hasDate = t2.hasDate) (hfK : t1.hasTicker = t2.hasTicker)
    (hfX : t1.hasTransaction = t2.hasTransaction) (hfI : t1.hasInsider = t2.hasInsider) :
    ((∀ a ∈ t1.rows, ∀ b ∈ t1.rows, a.ticker = b.ticker → a.date = b.date → a = b) →
        addStatisticalFeatures t1 = addStatisticalFeatures t2) ∧
      ((∀ a ∈ t1.rows, ∀ b ∈ t1.rows,
          a.insider = b.insider → a.ticker = b.ticker → a.date = b.date → a = b) →
        t1.hasInsider = true → t1.hasTicker = true →
        addDateFeatures t1 = addDateFeatures t2) := by
  constructor
  · intro hdist
    have hsorteq : statSort t1.rows = statSort t2.rows := by
      apply sortedPermEq _ _
        ((statSort_perm t1.rows).trans (hperm.trans (statSort_perm t2.rows).symm))
        (statSort_sorted t1.rows) (statSort_sorted t2.rows)
      intro a ha b hb hab hba
      have ha2 : a ∈ t1.rows := (statSort_perm t1.rows).mem_iff.mp ha
      have hb2 : b ∈ t1.rows := (statSort_perm t1.rows).mem_iff.mp hb
      rcases hab with h1 | ⟨e1, d1⟩
      · rcases hba with h2 | ⟨e2, _⟩
        · omega
        · omega
      · rcases hba with h2 | ⟨e2, d2⟩
        · omega
        · exact hdist a ha2 b hb2 e1 (le_antisymm d1 d2)
    unfold addStatisticalFeatures
    rw [hfD, hfX, hfK]
    have hrows : statRows t1.rows = statRows t2.rows := by
      unfold statRows
      rw [hsorteq]
    rw [hrows]
  · intro hgdist hI hK
    have hgsort : gapSort t1.rows = gapSort t2.rows := by
      apply sortedPermEq _ _
        ((gapSort_perm t1.rows).trans (hperm.trans (gapSort_perm t2.rows).symm))
        (gapSort_sorted t1.rows) (gapSort_sorted t2.rows)
      intro a ha b hb hab hba
      have ha2 : a ∈ t1.rows := (gapSort_perm t1.rows).mem_iff.mp ha
      have hb2 : b ∈ t1.rows := (gapSort_perm t1.rows).mem_iff.mp hb
      rcases hab with h1 | ⟨e1, r1⟩
      · rcases hba with h2 | ⟨e2, _⟩
        · omega
        · omega
      · rcases hba with h2 | ⟨e2, r2⟩
        · omega
        · rcases r1 with h3 | ⟨f1, d1⟩
          · rcases r2 with h4 | ⟨f2, _⟩
            · omega
            · omega
          · rcases r2 with h4 | ⟨f2, d2⟩
            · omega
            · exact hgdist a ha2 b hb2 e1 f1 (le_antisymm d1 d2)
    by_cases hD1 : t1.hasDate = true
    · rw [addDateFeatures_gap t1 hD1 hI hK,
        addDateFeatures_gap t2 (hfD ▸ hD1) (hfI ▸ hI) (hfK ▸ hK), hgsort]
    · have hD1f : t1.hasDate = false := by
        revert hD1; cases t1.hasDate <;> simp
      have hD2f : t2.hasDate = false := hfD ▸ hD1f
      unfold addDateFeatures dateAugment
      rw [hD1f, hD2f, if_pos rfl, if_pos rfl]

/-- Two distinct-day rows of entity 5, in the two input orders. -/
def rowD0 : Row := ⟨5, 0, 1, "Buy", 1, 1⟩

def rowD1 : Row := ⟨5, 3, 1, "Buy", 2, 1⟩

def tblDA : Table := ⟨true, true, true, true, [rowD0, rowD1]⟩

def tblDB : Table := ⟨true, true, true, true, [rowD1, rowD0]⟩

/-- Two insiders trading entity 5 on the same day, in the two input
orders: the gap engine's (insider, ticker, date) keys are
collision-free although the stats engine's (ticker, date) keys
collide. -/
def rowE1 : Row := ⟨5, 0, 1, "Buy", 1, 1⟩

def rowE2 : Row := ⟨5, 0, 2, "Buy", 2, 1⟩

def tblEA : Table := ⟨true, true, true, true, [rowE1, rowE2]⟩

def tblEB : Table := ⟨true, true, true, true, [rowE2, rowE1]⟩

/-- Witness for C6's amended theorem: the stats engine is order
independent under (ticker, date) collision-freedom, and the gap engine
already under (insider, ticker, date) collision-freedom alone — on the
second pair of tables two insiders trade the same ticker on the same
day, so the stats-engine condition fails while the gap engine is still
order independent. -/
theorem c6_witness :
    tblDA.rows.Perm tblDB.rows ∧
      (∀ a ∈ tblDA.rows, ∀ b ∈ tblDA.rows,
        a.ticker = b.ticker → a.date = b.date → a = b) ∧
      addStatisticalFeatures tblDA = addStatisticalFeatures tblDB ∧
      tblEA.rows.Perm tblEB.rows ∧
      (∀ a ∈ tblEA.rows, ∀ b ∈ tblEA.rows,
        a.insider = b.insider → a.ticker = b.ticker → a.date = b.date → a = b) ∧
      ¬ (∀ a ∈ tblEA.rows, ∀ b ∈ tblEA.rows,
        a.ticker = b.ticker → a.date = b.date → a = b) ∧
      addDateFeatures tblEA = addDateFeatures tblEB := by
  have hpermD : tblDA.rows.Perm tblDB.rows := by decide
  have hdistD : ∀ a ∈ tblDA.rows, ∀ b ∈ tblDA.rows,
      a.ticker = b.ticker → a.date = b.date → a = b := by decide
  have hpermE : tblEA.rows.Perm tblEB.rows := by decide
  have hgdistE : ∀ a ∈ tblEA.rows, ∀ b ∈ tblEA.rows,
      a.insider = b.insider → a.ticker = b.ticker → a.date = b.date → a = b := by decide
  exact ⟨hpermD, hdistD,
    (c6_order_independence tblDA tblDB hpermD rfl rfl rfl rfl).1 hdistD,
    hpermE, hgdistE, by decide,
    (c6_order_independence tblEA tblEB hpermE rfl rfl rfl rfl).2 hgdistE rfl rfl⟩

/-! ### Claim C7 -/

theorem statRows_length (rows : List Row) : (statRows rows).length = rows.length := by
  unfold statRows
  rw [List.length_map, List.length_range, statSort_length]

/-- A one-row table lacking the entity column. -/
def rowC7 : Row := ⟨0, 5, 1, "Buy", 1, 1⟩

def tblNoTicker : Table := ⟨true, false, true, true, [rowC7]⟩

/-- C7, counterexample: with the entity column absent but the
timestamp column present, the Temporal Gap Engine does not fail — it
succeeds (returning the gap column all-missing) instead of raising a
SchemaError. -/
theorem c7_counterexample :
    tblNoTicker.hasTicker = false ∧ tblNoTicker.rows ≠ [] ∧
      (addDateFeatures tblNoTicker).toOption.isSome = true := by
  refine ⟨rfl, by simp [tblNoTicker], by decide⟩

/-- C7 (amended): with the timestamp column absent both engines fail
with a SchemaError before producing anything; with the entity column
absent the Windowed Statistics Engine fails, but the Temporal Gap
Engine instead succeeds with the gap column all-missing (the one point
the counterexample forces); and on success each engine returns the
fully augmented table, one output row per input row — never a partial
result. -/
theorem c7_schema_errors (t : Table) :
    (t.hasDate = false →
        addStatisticalFeatures t = .error SchemaError.missingDate ∧
          addDateFeatures t = .error SchemaError.missingDate) ∧
      (t.hasDate = true → t.hasTransaction = true → t.hasTicker = false →
        addStatisticalFeatures t = .error SchemaError.missingTicker) ∧
      (t.hasDate = true → t.hasTicker = false →
        addDateFeatures t = .ok (t.rows.map (fun r =>
          ⟨r, yearOf r.date, monthOf r.date, dayOf r.date, weekdayOf r.date, none⟩))) ∧
      (∀ out, addStatisticalFeatures t = .ok out → out.length = t.rows.length) ∧
      (∀ out, addDateFeatures t = .ok out → out.length = t.rows.length) := by
  refine ⟨?_, ?_, ?_, ?_, ?_⟩
  · intro hD
    constructor
    · unfold addStatisticalFeatures
      rw [hD, if_pos rfl]
    · unfold addDateFeatures dateAugment
      rw [hD, if_pos rfl]
  · intro hD hX hK
    unfold addStatisticalFeatures
    rw [hD, hX, hK]
    rw [if_neg (by simp), if_neg (by simp), if_pos rfl]
  · intro hD hK
    unfold addDateFeatures dateAugment
    rw [hD, hK]
    rw [if_neg (by simp), if_neg (by simp)]
    simp only [id_eq]
  · intro out hout
    unfold addStatisticalFeatures at hout
    by_cases h1 : t.hasDate = false
    · rw [if_pos h1] at hout; exact absurd hout (by simp)
    · rw [if_neg h1] at hout
      by_cases h2 : t.hasTransaction = false
      · rw [if_pos h2] at hout; exact absurd hout (by simp)
      · rw [if_neg h2] at hout
        by_cases h3 : t.hasTicker = false
        · rw [if_pos h3] at hout; exact absurd hout (by simp)
        · rw [if_neg h3] at hout
          injection hout with hout
          rw [← hout, statRows_length]
  · intro out hout
    unfold addDateFeatures dateAugment at hout
    by_cases h1 : t.hasDate = false
    · rw [if_pos h1] at hout; exact absurd hout (by simp)
    · rw [if_neg h1] at hout
      by_cases h2 : t.hasInsider = true ∧ t.hasTicker = true
      · rw [if_pos h2] at hout
        injection hout with hout
        rw [← hout, List.length_map, List.length_range, List.length_insertionSort]
      · rw [if_neg h2] at hout
        injection hout with hout
        rw [← hout, List.length_map]

/-- A table lacking the timestamp column. -/
def tblNoDate : Table := ⟨false, true, true, true, [rowC7]⟩

/-- Witness for C7's amended theorem: without the timestamp column
both engines fail with the SchemaError. -/
theorem c7_witness :
    tblNoDate.hasDate = false ∧
      (addStatisticalFeatures tblNoDate = .error SchemaError.missingDate ∧
        addDateFeatures tblNoDate = .error SchemaError.missingDate) :=
  ⟨rfl, (c7_schema_errors tblNoDate).1 rfl⟩

/-! ### Claim C8 -/

/-- C8: a raw table with zero rows short-circuits: the Assembler
returns the empty table at once — for any schema flags, including ones
on which the Normalizer or either engine would fail, so none of them
is consulted — and the full pipeline raises no error. -/
theorem c8_empty_input (raw : RawTable) (h : raw.rows = []) :
    buildFeatureMatrix raw = .ok [] := by
  unfold buildFeatureMatrix
  rw [h]
  rfl

/-- The empty raw table with every column absent. -/
def rawEmpty : RawTable := ⟨false, false, false, false, false, false, []⟩

/-- Witness for C8: the empty raw table — on whose schema every engine
would fail — still yields the empty output with no error. -/
theorem c8_witness :
    rawEmpty.rows = [] ∧ buildFeatureMatrix rawEmpty = .ok [] :=
  ⟨rfl, c8_empty_input rawEmpty rfl⟩

/-! ### Claim C9 -/

/-- Default table for `Option.getD`. -/
def dTable : Table := ⟨true, true, true, true, []⟩

def rawSale : RawRow := ⟨1, some 0, 1, " sale ", some 1, some 2⟩

def rawHold : RawRow := ⟨1, some 1, 1, "hold", some 1, some 2⟩

def rawSell : RawRow := ⟨1, some 2, 1, "Sell", some 1, some 2⟩

def tblRaw9 : RawTable := ⟨true, true, true, true, true, true, [rawSale, rawHold, rawSell]⟩

/-- C9, counterexample: cleaning keeps the title-cased `"Sale"` row —
a value outside the claim's set `{Buy, Sell}` — while the `"Sell"` row
the claim would keep is removed (the code's filter is
`isin(["Buy", "Sale"])`). -/
theorem c9_counterexample :
    ((cleanData tblRaw9).toOption.getD dTable).rows.map (fun r => r.transaction)
        = ["Sale"] ∧
      ¬ ("Sale" = "Buy" ∨ "Sale" = "Sell") := by
  exact ⟨by decide, by decide⟩

/-- C9 (amended): every row of the cleaned table satisfies
`transaction ∈ {"Buy", "Sale"}` — the code's sell label is `"Sale"`,
not `"Sell"` — and rows whose normalized transaction falls outside
that set are removed rather than kept. -/
theorem c9_transactions_amended (raw : RawTable) (out : Table)
    (h : cleanData raw = .ok out) :
    ∀ r ∈ out.rows, r.transaction = "Buy" ∨ r.transaction = "Sale" := by
  unfold cleanData at h
  by_cases h1 : (raw.hasDate && raw.hasShares && raw.hasPrice) = false
  · rw [if_pos h1] at h; exact absurd h (by simp)
  · rw [if_neg h1] at h
    by_cases h2 : raw.hasTransaction = false
    · rw [if_pos h2] at h; exact absurd h (by simp)
    · rw [if_neg h2] at h
      injection h with h
      subst h
      intro r hr
      have hp := List.of_mem_filter hr
      simpa using hp

def rawBuy : RawRow := ⟨2, some 3, 1, "BUY", some 2, some 2⟩

def tblRaw9w : RawTable := ⟨true, true, true, true, true, true, [rawBuy, rawHold]⟩

def tblClean9 : Table := ⟨true, true, true, true, [⟨2, 3, 1, "Buy", 2, 2⟩]⟩

/-- Witness for C9's amended theorem on a concrete raw table. -/
theorem c9_witness :
    cleanData tblRaw9w = .ok tblClean9 ∧
      ∀ r ∈ tblClean9.rows, r.transaction = "Buy" ∨ r.transaction = "Sale" := by
  have h : cleanData tblRaw9w = .ok tblClean9 := by rfl
  exact ⟨h, c9_transactions_amended tblRaw9w tblClean9 h⟩
